import Mathlib

/-!
Verification of the argument/environment derivation and process-lifecycle
logic of the scripts runner
(src/packages/hardhat-core/src/internal/util/scripts-runner.ts).

The ambient process state the TypeScript code reads (process.execArgv,
__filename, process.env) and the external collaborators it calls
(getEnvVariablesMap, path.join applied to __dirname) are threaded as
explicit parameters, so every function below is a pure shallow embedding
of the corresponding source function.
-/

namespace ScriptsRunner

/-- The pattern searched for by fixIfInspectArg: "--inspect-brk=". -/
def inspectBrkPattern : String := "--inspect-brk="

/-- Substring search over character sequences: true when pat occurs as a
contiguous run somewhere in the second list. Embeds the semantics of the
JavaScript String.prototype.includes test. -/
def containsSeq (pat : List Char) : List Char → Bool
  | [] => pat.isEmpty
  | a :: rest => pat.isPrefixOf (a :: rest) || containsSeq pat rest

/-- Embeds the test arg.toLowerCase().includes("--inspect-brk=") from
fixIfInspectArg (scripts-runner.ts line 83); toLowerCase is modelled
characterwise by Char.toLower. -/
def containsInspectBrk (arg : String) : Bool :=
  containsSeq inspectBrkPattern.data (arg.data.map Char.toLower)

/-- Embeds fixIfInspectArg (scripts-runner.ts lines 83 to 88): replace an
argument whose lowercase form contains "--inspect-brk=" by "--inspect",
any other argument passes through unchanged. -/
def fixIfInspectArg (arg : String) : String :=
  if containsInspectBrk arg then "--inspect" else arg

/-- Embeds withFixedInspectArg (scripts-runner.ts lines 82 to 90):
argv.map(fixIfInspectArg). -/
def withFixedInspectArg (argv : List String) : List String :=
  argv.map fixIfInspectArg

/-- Embeds the regex test /\.tsx?$/i.test(scriptPath) of
getTsNodeArgsIfNeeded (scripts-runner.ts line 99): the path ends,
case-insensitively, in ".ts" or ".tsx". -/
def matchesTsExtension (s : String) : Bool :=
  ".ts".data.isSuffixOf (s.data.map Char.toLower) ||
    ".tsx".data.isSuffixOf (s.data.map Char.toLower)

/-- Embeds __filename.endsWith(".ts") of getTsNodeArgsIfNeeded
(scripts-runner.ts line 99), a case-sensitive suffix test. -/
def endsWithTs (filename : String) : Bool :=
  ".ts".data.isSuffixOf filename.data

/-- Embeds getTsNodeArgsIfNeeded (scripts-runner.ts lines 92 to 104).
The ambient process.execArgv and __filename are explicit parameters. -/
def getTsNodeArgsIfNeeded (execArgv : List String) (filename scriptPath : String) :
    List String :=
  if execArgv.contains "ts-node/register" then []
  else if matchesTsExtension scriptPath || endsWithTs filename then
    ["--require", "ts-node/register"]
  else []

/-- The argument bundle a call to runScript receives (scriptPath,
scriptArgs, extraNodeArgs, extraEnvVars). Environment mappings are
modelled as partial maps from names to values. -/
structure RunScriptCall where
  scriptPath : String
  scriptArgs : List String
  extraNodeArgs : List String
  extraEnvVars : String → Option String

/-- The data runScript hands to the fork capability (scripts-runner.ts
lines 28 to 32): the module path, its argv, the derived execArgv, and the
merged environment. -/
structure ForkCall where
  modulePath : String
  args : List String
  execArgv : List String
  env : String → Option String

/-- Embeds the object spread of two environment mappings,
as in the source expression with the spread of process.env followed by
extraEnvVars (scripts-runner.ts line 26): a key bound in the second
mapping takes its value from there, otherwise from the first. -/
def spreadEnv (base extra : String → Option String) : String → Option String :=
  fun k =>
    match extra k with
    | some v => some v
    | none => base k

/-- Embeds the argument/environment derivation of runScript
(scripts-runner.ts lines 18 to 32): nodeArgs is the concatenation of the
fixed-up inherited execArgv, the conditional ts-node loader arguments
(computed from the raw inherited execArgv), and the caller extraNodeArgs;
env is the inherited environment overridden by the caller extraEnvVars. -/
def runScript (execArgv : List String) (filename : String)
    (processEnv : String → Option String) (call : RunScriptCall) : ForkCall :=
  { modulePath := call.scriptPath
    args := call.scriptArgs
    execArgv := withFixedInspectArg execArgv
      ++ getTsNodeArgsIfNeeded execArgv filename call.scriptPath
      ++ call.extraNodeArgs
    env := spreadEnv processEnv call.extraEnvVars }

/-- Embeds runScriptWithHardhat (scripts-runner.ts lines 43 to 65) as the
runScript call it delegates to. The external collaborator
getEnvVariablesMap and the register module path computed by
path.join(__dirname, "..", "..", "register") are explicit parameters;
the type of HardhatArguments is abstract. -/
def runScriptWithHardhat {α : Type} (getEnvVariablesMap : α → String → Option String)
    (registerPath : String) (hardhatArguments : α) (scriptPath : String)
    (scriptArgs extraNodeArgs : List String) (extraEnvVars : String → Option String) :
    RunScriptCall :=
  { scriptPath := scriptPath
    scriptArgs := scriptArgs
    extraNodeArgs := extraNodeArgs ++ ["--require", registerPath]
    extraEnvVars := spreadEnv (getEnvVariablesMap hardhatArguments) extraEnvVars }

/-- A terminal lifecycle signal emitted by the child process handle:
either the close signal carrying an exit status (possibly null), or the
error signal carrying a launch error. -/
inductive ChildEvent where
  | close (status : Option Int)
  | launchError (err : String)

/-- The terminal value of the asynchronous result of runScript. -/
inductive LaunchOutcome where
  | exited (code : Option Int)
  | launchFailed (err : String)

/-- The outcome a single signal would settle the promise with
(scripts-runner.ts lines 34 to 39): close resolves with the carried
status, error rejects with the carried error. -/
def signalOutcome : ChildEvent → LaunchOutcome
  | ChildEvent.close s => LaunchOutcome.exited s
  | ChildEvent.launchError e => LaunchOutcome.launchFailed e

/-- One step of the settle-once promise executor of runScript: a signal
arriving after the promise has settled is ignored, a signal arriving
first settles it with that signal's outcome. -/
def settleStep (st : Option LaunchOutcome) (e : ChildEvent) : Option LaunchOutcome :=
  match st with
  | some o => some o
  | none => some (signalOutcome e)

/-- Embeds the promise executor of runScript (scripts-runner.ts lines 34
to 39) over a sequence of terminal lifecycle signals delivered in order:
the one-shot subscriptions plus the settle-once promise semantics. -/
def settleEvents (evts : List ChildEvent) : Option LaunchOutcome :=
  evts.foldl settleStep none

lemma foldl_settleStep_settled (o : LaunchOutcome) (l : List ChildEvent) :
    l.foldl settleStep (some o) = some o := by
  induction l with
  | nil => rfl
  | cons a t ih => simpa [settleStep] using ih

lemma fixIfInspectArg_idem (a : String) :
    fixIfInspectArg (fixIfInspectArg a) = fixIfInspectArg a := by
  by_cases h : containsInspectBrk a = true
  · have h1 : fixIfInspectArg a = "--inspect" := by simp [fixIfInspectArg, h]
    rw [h1]
    simp [fixIfInspectArg, show containsInspectBrk "--inspect" = false from by decide]
  · have hf : containsInspectBrk a = false := by simpa using h
    simp [fixIfInspectArg, hf]

/-- C1 counterexample: with caller extraNodeArgs = ["X"], the
extra-runtime-argument sequence runScriptWithHardhat passes to runScript
is ["X", "--require", "REG"]; the loader-injection pair sits at indices 1
and 2, after the caller-supplied argument "X" at index 0, so the pair
does not come before every caller-supplied extra runtime argument. -/
theorem runScriptWithHardhat_pair_not_first :
    (runScriptWithHardhat (fun _ : Unit => fun _ : String => none) "REG" () "script.js" []
        ["X"] (fun _ : String => none)).extraNodeArgs = ["X", "--require", "REG"] ∧
    List.indexOf "X"
        (runScriptWithHardhat (fun _ : Unit => fun _ : String => none) "REG" () "script.js" []
          ["X"] (fun _ : String => none)).extraNodeArgs = 0 ∧
    List.indexOf "--require"
        (runScriptWithHardhat (fun _ : Unit => fun _ : String => none) "REG" () "script.js" []
          ["X"] (fun _ : String => none)).extraNodeArgs = 1 := by
  refine ⟨rfl, ?_, ?_⟩ <;> decide

/-- C1 (amended): runScriptWithHardhat passes to runScript the caller
extraNodeArgs followed by the fixed two-token loader-injection pair:
the pair occupies the final two positions, at indices equal to the length
of the caller sequence and that length plus one. -/
theorem runScriptWithHardhat_appends_pair {α : Type} (gev : α → String → Option String)
    (registerPath : String) (hargs : α) (scriptPath : String)
    (scriptArgs extraNodeArgs : List String) (extraEnvVars : String → Option String) :
    (runScriptWithHardhat gev registerPath hargs scriptPath scriptArgs extraNodeArgs
        extraEnvVars).extraNodeArgs = extraNodeArgs ++ ["--require", registerPath] ∧
    (runScriptWithHardhat gev registerPath hargs scriptPath scriptArgs extraNodeArgs
        extraEnvVars).extraNodeArgs[extraNodeArgs.length]? = some "--require" ∧
    (runScriptWithHardhat gev registerPath hargs scriptPath scriptArgs extraNodeArgs
        extraEnvVars).extraNodeArgs[extraNodeArgs.length + 1]? = some registerPath := by
  refine ⟨rfl, ?_, ?_⟩
  · show (extraNodeArgs ++ ["--require", registerPath])[extraNodeArgs.length]? = _
    rw [List.getElem?_append_right (Nat.le_refl _)]
    simp
  · show (extraNodeArgs ++ ["--require", registerPath])[extraNodeArgs.length + 1]? = _
    rw [List.getElem?_append_right (Nat.le_succ _)]
    simp

/-- C2: withFixedInspectArg preserves length, and the element at each
valid position i of the output is "--inspect" when the lowercase form of
the input element at i contains "--inspect-brk=", and is the input
element itself otherwise. -/
theorem withFixedInspectArg_pointwise (argv : List String) (i : Nat) (h : i < argv.length) :
    (withFixedInspectArg argv).length = argv.length ∧
    (withFixedInspectArg argv)[i]? =
      some (if containsInspectBrk argv[i] then "--inspect" else argv[i]) := by
  refine ⟨by simp [withFixedInspectArg], ?_⟩
  simp [withFixedInspectArg, fixIfInspectArg, List.getElem?_map, List.getElem?_eq_getElem h]

/-- C2 witness at argv = ["--foo", "--Inspect-Brk=9229"], i = 1. -/
theorem withFixedInspectArg_pointwise_at_example :
    (withFixedInspectArg ["--foo", "--Inspect-Brk=9229"]).length =
        (["--foo", "--Inspect-Brk=9229"] : List String).length ∧
    (withFixedInspectArg ["--foo", "--Inspect-Brk=9229"])[1]? =
      some (if containsInspectBrk (["--foo", "--Inspect-Brk=9229"] : List String)[1] then
          "--inspect"
        else (["--foo", "--Inspect-Brk=9229"] : List String)[1]) :=
  withFixedInspectArg_pointwise ["--foo", "--Inspect-Brk=9229"] 1 (by decide)

/-- C3: when the inherited execArgv contains the marker
"ts-node/register", getTsNodeArgsIfNeeded returns the empty sequence,
whatever the scriptPath and the filename of the launcher module are. -/
theorem getTsNodeArgsIfNeeded_marker_suppresses (execArgv : List String)
    (filename scriptPath : String)
    (h : execArgv.contains "ts-node/register" = true) :
    getTsNodeArgsIfNeeded execArgv filename scriptPath = [] := by
  unfold getTsNodeArgsIfNeeded
  rw [h]
  simp

/-- C3 witness: the marker present, a .ts scriptPath and a .ts launcher
filename, and still no loader arguments. -/
theorem getTsNodeArgsIfNeeded_marker_suppresses_at_example :
    (["ts-node/register"] : List String).contains "ts-node/register" = true ∧
    getTsNodeArgsIfNeeded ["ts-node/register"] "scripts-runner.ts" "run.ts" = [] :=
  ⟨by decide,
    getTsNodeArgsIfNeeded_marker_suppresses ["ts-node/register"] "scripts-runner.ts" "run.ts"
      (by decide)⟩

/-- C4: with the marker absent, a scriptPath whose extension matches
case-insensitive .ts or .tsx yields exactly ["--require",
"ts-node/register"]; and a scriptPath not matching, with the launcher
module not itself a .ts file, yields the empty sequence. -/
theorem getTsNodeArgsIfNeeded_extension (execArgv : List String)
    (filename scriptPath : String) :
    (execArgv.contains "ts-node/register" = false → matchesTsExtension scriptPath = true →
      getTsNodeArgsIfNeeded execArgv filename scriptPath = ["--require", "ts-node/register"]) ∧
    (matchesTsExtension scriptPath = false → endsWithTs filename = false →
      getTsNodeArgsIfNeeded execArgv filename scriptPath = []) := by
  constructor
  · intro hm hx
    unfold getTsNodeArgsIfNeeded
    rw [hm, hx]
    simp
  · intro hx hf
    cases hm : execArgv.contains "ts-node/register" with
    | true =>
      unfold getTsNodeArgsIfNeeded
      rw [hm]
      simp
    | false =>
      unfold getTsNodeArgsIfNeeded
      rw [hm, hx, hf]
      simp

/-- C4 witness: scriptPath "script.TS" gets the loader pair, scriptPath
"script.js" gets nothing, both under a marker-free execArgv and a .js
launcher filename. -/
theorem getTsNodeArgsIfNeeded_extension_at_example :
    getTsNodeArgsIfNeeded ["--x"] "scripts-runner.js" "script.TS" =
        ["--require", "ts-node/register"] ∧
    getTsNodeArgsIfNeeded ["--x"] "scripts-runner.js" "script.js" = [] :=
  ⟨(getTsNodeArgsIfNeeded_extension ["--x"] "scripts-runner.js" "script.TS").1
      (by decide) (by decide),
    (getTsNodeArgsIfNeeded_extension ["--x"] "scripts-runner.js" "script.js").2
      (by decide) (by decide)⟩

/-- C5: the execArgv runScript hands to the fork capability is the
concatenation, in order, of the fixed-up inherited runtime arguments, the
conditionally derived ts-node loader arguments, and the caller
extraNodeArgs. -/
theorem runScript_effective_args (execArgv : List String) (filename : String)
    (processEnv : String → Option String) (call : RunScriptCall) :
    (runScript execArgv filename processEnv call).execArgv =
      withFixedInspectArg execArgv
        ++ getTsNodeArgsIfNeeded execArgv filename call.scriptPath
        ++ call.extraNodeArgs := rfl

/-- C6: the environment runScript hands to the fork capability maps a key
to the extraEnvVars value whenever extraEnvVars binds it (so a caller
binding wins over an inherited one), and to the inherited value when
extraEnvVars does not bind it. -/
theorem runScript_effective_env (execArgv : List String) (filename : String)
    (processEnv : String → Option String) (call : RunScriptCall) (k v : String) :
    (call.extraEnvVars k = some v →
      (runScript execArgv filename processEnv call).env k = some v) ∧
    (call.extraEnvVars k = none →
      (runScript execArgv filename processEnv call).env k = processEnv k) := by
  constructor <;> intro h <;> simp [runScript, spreadEnv, h]

/-- C6 witness: a key bound to "inherited" by the inherited environment
and to "caller" by extraEnvVars comes out as "caller", and a key bound
only by the inherited environment keeps its inherited value. -/
theorem runScript_effective_env_at_example :
    ((fun k : String => if k == "HOME" then some "caller" else none) "HOME" =
        some "caller") ∧
    (runScript [] "f.js" (fun k : String => if k == "HOME" then some "inherited" else none)
        ⟨"s.js", [], [], fun k : String => if k == "HOME" then some "caller" else none⟩).env
        "HOME" = some "caller" :=
  ⟨by decide,
    (runScript_effective_env [] "f.js"
        (fun k : String => if k == "HOME" then some "inherited" else none)
        ⟨"s.js", [], [], fun k : String => if k == "HOME" then some "caller" else none⟩
        "HOME" "caller").1 (by decide)⟩

/-- C7: over any nonempty sequence of terminal lifecycle signals
delivered in order, the promise of runScript settles exactly once, with
the outcome of the first signal (close becomes Exited with the carried
status, error becomes LaunchFailed), and every later signal is ignored:
the result equals the result of the first signal alone. -/
theorem runScript_settles_once (e : ChildEvent) (rest : List ChildEvent) :
    settleEvents (e :: rest) = some (signalOutcome e) ∧
    settleEvents (e :: rest) = settleEvents [e] := by
  have h1 : settleEvents (e :: rest) = some (signalOutcome e) := by
    show (e :: rest).foldl settleStep none = _
    simp [List.foldl, settleStep, foldl_settleStep_settled]
  exact ⟨h1, by rw [h1]; rfl⟩

/-- C8: the environment mapping runScriptWithHardhat passes to runScript
binds a key to the caller extraEnvVars value whenever the caller binds
it (caller wins over the collaborator-derived mapping), and to the value
derived from the framework arguments otherwise. -/
theorem runScriptWithHardhat_env {α : Type} (gev : α → String → Option String)
    (registerPath : String) (hargs : α) (scriptPath : String)
    (scriptArgs extraNodeArgs : List String) (extraEnvVars : String → Option String)
    (k v : String) :
    (extraEnvVars k = some v →
      (runScriptWithHardhat gev registerPath hargs scriptPath scriptArgs extraNodeArgs
          extraEnvVars).extraEnvVars k = some v) ∧
    (extraEnvVars k = none →
      (runScriptWithHardhat gev registerPath hargs scriptPath scriptArgs extraNodeArgs
          extraEnvVars).extraEnvVars k = gev hargs k) := by
  constructor <;> intro h <;> simp [runScriptWithHardhat, spreadEnv, h]

/-- C8 witness: a key bound to "fw" by the collaborator-derived mapping
and to "caller" by extraEnvVars comes out as "caller", and a key the
caller does not bind keeps the derived value. -/
theorem runScriptWithHardhat_env_at_example :
    ((fun k : String => if k == "A" then some "caller" else none) "A" = some "caller") ∧
    (runScriptWithHardhat (fun _ : Unit => fun k : String => if k == "A" then some "fw" else none)
        "REG" () "s.js" [] []
        (fun k : String => if k == "A" then some "caller" else none)).extraEnvVars "A" =
      some "caller" :=
  ⟨by decide,
    (runScriptWithHardhat_env (fun _ : Unit => fun k : String => if k == "A" then some "fw" else none)
        "REG" () "s.js" [] []
        (fun k : String => if k == "A" then some "caller" else none) "A" "caller").1
      (by decide)⟩

/-- C9: withFixedInspectArg is idempotent; in particular the replacement
string "--inspect" does not itself contain "--inspect-brk=", so a second
pass changes nothing. -/
theorem withFixedInspectArg_idempotent (argv : List String) :
    withFixedInspectArg (withFixedInspectArg argv) = withFixedInspectArg argv := by
  induction argv with
  | nil => rfl
  | cons a t ih =>
    show fixIfInspectArg (fixIfInspectArg a) :: withFixedInspectArg (withFixedInspectArg t)
        = fixIfInspectArg a :: withFixedInspectArg t
    rw [fixIfInspectArg_idem, ih]

/-- C10: when one of the two injection triggers holds (the scriptPath has
a .ts or .tsx extension, or the launcher module is itself a .ts file),
loader injection is suppressed exactly when some element of execArgv
equals the string "ts-node/register"; membership is exact string
equality, so an element merely containing the marker as a proper
substring does not suppress injection. -/
theorem getTsNodeArgsIfNeeded_marker_exact (execArgv : List String)
    (filename scriptPath : String)
    (htrig : matchesTsExtension scriptPath = true ∨ endsWithTs filename = true) :
    (getTsNodeArgsIfNeeded execArgv filename scriptPath = [] ↔
      "ts-node/register" ∈ execArgv) := by
  cases hm : execArgv.contains "ts-node/register" with
  | true =>
    have hmem : "ts-node/register" ∈ execArgv := List.elem_iff.mp hm
    unfold getTsNodeArgsIfNeeded
    rw [hm]
    simpa using hmem
  | false =>
    have hmem : "ts-node/register" ∉ execArgv := by
      intro hx
      have hc : execArgv.contains "ts-node/register" = true := List.elem_iff.mpr hx
      rw [hm] at hc
      exact Bool.noConfusion hc
    have htr : (matchesTsExtension scriptPath || endsWithTs filename) = true := by
      rcases htrig with h | h <;> simp [h]
    unfold getTsNodeArgsIfNeeded
    rw [hm, htr]
    simp [hmem]

/-- C10 witness: execArgv = ["--require=ts-node/register"] contains the
marker only as a proper substring of one element; with a .ts scriptPath,
injection is not suppressed. -/
theorem getTsNodeArgsIfNeeded_marker_exact_at_example :
    matchesTsExtension "x.ts" = true ∧
    (getTsNodeArgsIfNeeded ["--require=ts-node/register"] "f.js" "x.ts" = [] ↔
      "ts-node/register" ∈ (["--require=ts-node/register"] : List String)) :=
  ⟨by decide,
    getTsNodeArgsIfNeeded_marker_exact ["--require=ts-node/register"] "f.js" "x.ts"
      (Or.inl (by decide))⟩

end ScriptsRunner
